import Mathlib

/-!
Verification of the OptionsModel pricing-and-payoff engine.

Shallow embedding of the core numerical code:
  models/pricing.py        (black_scholes, calculate_implied_volatility,
                            bisection fallback, binomial_tree_price)
  utils/calculation.py     (calculate_strategy_payoff,
                            calculate_strategy_current_value,
                            find_breakeven_points)
  strategies/advanced_strategies.py (iron_condor)
  utils/error_handlers.py  (handle_calculation_error)

Machine floats are idealised as real numbers; Python exceptions are
modelled with Except; numpy arrays are lists.  The scipy standard normal
cdf is embedded as the Gaussian integral.
-/

open MeasureTheory

namespace OptionsModel

/-- Python str.lower restricted to ASCII, the only case the code
exercises: option type strings.  String.toLower of core Lean does not
reduce in the kernel, so the per-character map is spelled out. -/
def pyLower (s : String) : String := String.mk (s.data.map Char.toLower)

/-- Density of the standard normal distribution, the scipy norm.pdf. -/
noncomputable def normPdf (x : ℝ) : ℝ :=
  Real.exp (-(x ^ 2) / 2) / Real.sqrt (2 * Real.pi)

/-- Cumulative distribution function of the standard normal, the scipy
norm.cdf used by models/pricing.py. -/
noncomputable def normCdf (x : ℝ) : ℝ :=
  ∫ t in Set.Iic x, normPdf t

/-- The volatility clamp of black_scholes: nonpositive sigma becomes
0.0001, models/pricing.py lines 36 to 37. -/
noncomputable def bsSigma (sigma : ℝ) : ℝ := if sigma ≤ 0 then 0.0001 else sigma

/-- The first normal argument d1 of the Black Scholes formula,
models/pricing.py line 48. -/
noncomputable def bsD1 (S K t r sigma : ℝ) : ℝ :=
  (Real.log (S / K) + (r + sigma ^ 2 / 2) * t) / (sigma * Real.sqrt t)

/-- The second normal argument d2 = d1 - sigma sqrt t, line 49. -/
noncomputable def bsD2 (S K t r sigma : ℝ) : ℝ :=
  bsD1 S K t r sigma - sigma * Real.sqrt t

/-- Embedding of black_scholes from models/pricing.py.  The code first
handles t less or equal 0 by returning intrinsic value, then clamps a
nonpositive sigma to 0.0001, computes d1 and d2 and the discounted
expectation formula, floored at zero.  An option type other than call or
put raises a ValueError inside the try block, which the except branch of
the function itself converts to the put intrinsic value, because the
fallback tests option_type.lower() against call only. -/
noncomputable def black_scholes (option_type : String) (S K t r sigma : ℝ) : ℝ :=
  if t ≤ 0 then
    if pyLower option_type = "call" then max 0 (S - K) else max 0 (K - S)
  else
    if pyLower option_type = "call" then
      max 0 (S * normCdf (bsD1 S K t r (bsSigma sigma)) -
        K * Real.exp (-(r * t)) * normCdf (bsD2 S K t r (bsSigma sigma)))
    else if pyLower option_type = "put" then
      max 0 (K * Real.exp (-(r * t)) * normCdf (-(bsD2 S K t r (bsSigma sigma))) -
        S * normCdf (-(bsD1 S K t r (bsSigma sigma))))
    else
      max 0 (K - S)

/-- The bisection loop of calculate_iv_bisection, source name with a
leading underscore, models/pricing.py lines 254 to 268: up to 100 halving
steps; when the midpoint price is within precision of the market price the
midpoint is returned, otherwise the bracketing half is kept; when the fuel
runs out the current midpoint is returned. -/
noncomputable def bisectLoop (option_type : String) (S K t r market_price precision : ℝ) :
    ℕ → ℝ → ℝ → ℝ
  | 0, min_vol, max_vol => (min_vol + max_vol) / 2
  | n + 1, min_vol, max_vol =>
    let mid_vol := (min_vol + max_vol) / 2
    let mid_price := black_scholes option_type S K t r mid_vol
    if |mid_price - market_price| < precision then mid_vol
    else if mid_price < market_price then
      bisectLoop option_type S K t r market_price precision n mid_vol max_vol
    else
      bisectLoop option_type S K t r market_price precision n min_vol mid_vol

/-- Embedding of the bisection fallback of models/pricing.py
(calculate_iv_bisection in the source, with a leading underscore): invalid
bounds give 0.3; a market price at or below the price at the lower bound
gives the lower bound, at or above the price at the upper bound the upper
bound; otherwise 100 bisection steps. -/
noncomputable def calculate_iv_bisection (option_type : String)
    (S K t r market_price min_vol max_vol precision : ℝ) : ℝ :=
  if max_vol ≤ min_vol then 0.3
  else
    let min_price := black_scholes option_type S K t r min_vol
    let max_price := black_scholes option_type S K t r max_vol
    if market_price ≤ min_price then min_vol
    else if max_price ≤ market_price then max_vol
    else bisectLoop option_type S K t r market_price precision 100 min_vol max_vol

/-- Embedding of calculate_implied_volatility from models/pricing.py.
The scipy Newton root finder is an external numerical routine; it is
modelled by an oracle argument: some x when optimize.newton returns x,
none when it raises, in which case the code falls back to bisection with
the default bounds 0.0001 and 5.0.  A successful Newton result is clamped
into the interval 0.0001 to 5.0.  Nonpositive market prices and market
prices below intrinsic value return the floor 0.0001 before any root
finding. -/
noncomputable def calculate_implied_volatility (option_type : String)
    (S K t r market_price : ℝ) (newton : Option ℝ) : ℝ :=
  if market_price ≤ 0 then 0.0001
  else if market_price <
      (if pyLower option_type = "call" then max 0 (S - K) else max 0 (K - S)) then 0.0001
  else
    match newton with
    | some x => max 0.0001 (min x 5.0)
    | none => calculate_iv_bisection option_type S K t r market_price 0.0001 5.0 0.0001

/-- A strategy leg, the dictionary shape produced by the strategy
constructors and consumed by utils/calculation.py.  Every field is
optional because the code reads each key with dict.get and a default:
a missing key is none. -/
structure Leg where
  type : Option String
  position : Option String
  strike : Option ℝ
  expiry : Option String
  price : Option ℝ
  current_price : Option ℝ
  quantity : Option ℝ
  iv : Option ℝ

/-- Embedding of iron_condor from strategies/advanced_strategies.py.  The
strike order is validated first; a violation raises a ValueError before
any leg dictionary is built.  Current premiums default to the entry
premiums when not provided. -/
noncomputable def iron_condor
    (long_put_strike short_put_strike short_call_strike long_call_strike : ℝ)
    (expiration : String)
    (long_put_premium short_put_premium short_call_premium long_call_premium : ℝ)
    (current_long_put_premium current_short_put_premium
      current_short_call_premium current_long_call_premium : Option ℝ)
    (quantity : ℝ)
    (long_put_iv short_put_iv short_call_iv long_call_iv : ℝ) : Except String (List Leg) :=
  if ¬(long_put_strike < short_put_strike ∧ short_put_strike < short_call_strike ∧
        short_call_strike < long_call_strike) then
    Except.error "Strike order must be: long put < short put < short call < long call"
  else
    Except.ok
      [{ type := some "put", position := some "long", strike := some long_put_strike,
         expiry := some expiration, price := some long_put_premium,
         current_price := some (current_long_put_premium.getD long_put_premium),
         quantity := some quantity, iv := some long_put_iv },
       { type := some "put", position := some "short", strike := some short_put_strike,
         expiry := some expiration, price := some short_put_premium,
         current_price := some (current_short_put_premium.getD short_put_premium),
         quantity := some quantity, iv := some short_put_iv },
       { type := some "call", position := some "short", strike := some short_call_strike,
         expiry := some expiration, price := some short_call_premium,
         current_price := some (current_short_call_premium.getD short_call_premium),
         quantity := some quantity, iv := some short_call_iv },
       { type := some "call", position := some "long", strike := some long_call_strike,
         expiry := some expiration, price := some long_call_premium,
         current_price := some (current_long_call_premium.getD long_call_premium),
         quantity := some quantity, iv := some long_call_iv }]

/-- The contribution of one leg of calculate_strategy_payoff at one price,
utils/calculation.py lines 29 to 55: premium defaults to 0, quantity to 1,
sign is +1 for long and -1 otherwise; a call or put leg with a missing
strike makes numpy subtract None from a float, a TypeError; a stock leg
falls back to the current_price argument for its purchase price and fails
the same way when both are missing; a leg of any other type contributes
nothing. -/
noncomputable def legPayoffTerm (current_price : Option ℝ) (leg : Leg) (p : ℝ) :
    Except String ℝ :=
  let premium := leg.price.getD 0
  let quantity := leg.quantity.getD 1
  let sign : ℝ := if leg.position = some "long" then 1 else -1
  if leg.type = some "call" then
    match leg.strike with
    | some strike => Except.ok (sign * (max 0 (p - strike) - premium) * quantity)
    | none => Except.error "TypeError"
  else if leg.type = some "put" then
    match leg.strike with
    | some strike => Except.ok (sign * (max 0 (strike - p) - premium) * quantity)
    | none => Except.error "TypeError"
  else if leg.type = some "stock" then
    match leg.price with
    | some purchase => Except.ok (sign * (p - purchase) * quantity)
    | none =>
      match current_price with
      | some cp => Except.ok (sign * (p - cp) * quantity)
      | none => Except.error "TypeError"
  else Except.ok 0

/-- The numpy array of one leg of calculate_strategy_payoff over the whole
price range.  An empty price range never evaluates the elementwise
operation, matching numpy on zero length object arrays, so a malformed leg
only raises when the range is nonempty. -/
noncomputable def legPayoffs (current_price : Option ℝ) (leg : Leg) :
    List ℝ → Except String (List ℝ)
  | [] => Except.ok []
  | p :: ps =>
    match legPayoffTerm current_price leg p with
    | Except.error e => Except.error e
    | Except.ok v =>
      match legPayoffs current_price leg ps with
      | Except.error e => Except.error e
      | Except.ok vs => Except.ok (v :: vs)

/-- The leg loop of calculate_strategy_payoff: each leg adds its array to
the running payoffs array; the first exception aborts the loop, as in
Python. -/
noncomputable def payoffFold (current_price : Option ℝ) (price_range : List ℝ) :
    List Leg → List ℝ → Except String (List ℝ)
  | [], payoffs => Except.ok payoffs
  | leg :: legs, payoffs =>
    match legPayoffs current_price leg price_range with
    | Except.error e => Except.error e
    | Except.ok arr =>
      payoffFold current_price price_range legs (payoffs.zipWith (fun a b => a + b) arr)

/-- Embedding of calculate_strategy_payoff from utils/calculation.py:
start from a zero array of the length of the price range, add each leg
array, and multiply the total by the contract size 100.  The
handle_calculation_error decorator re-raises for this function name, so an
exception escapes to the caller, modelled by Except.error. -/
noncomputable def calculate_strategy_payoff (strategy_legs : List Leg)
    (price_range : List ℝ) (current_price : Option ℝ) : Except String (List ℝ) :=
  (payoffFold current_price price_range strategy_legs
      (List.replicate price_range.length 0)).map
    (List.map (fun v => v * 100))

/-- The payoff formula exactly as claim C1 words it: the 100 contract
multiplier applied to option legs only, and not to stock legs.  This
definition follows the claim, not the source, and is compared against the
source embedding. -/
noncomputable def claimedPayoffC1 (strategy_legs : List Leg) (price_range : List ℝ)
    (current_price : Option ℝ) : List ℝ :=
  price_range.map (fun p =>
    (strategy_legs.map (fun leg =>
      let premium := leg.price.getD 0
      let quantity := leg.quantity.getD 1
      let sign : ℝ := if leg.position = some "long" then 1 else -1
      if leg.type = some "call" then
        sign * (max 0 (p - leg.strike.getD 0) - premium) * quantity * 100
      else if leg.type = some "put" then
        sign * (max 0 (leg.strike.getD 0 - p) - premium) * quantity * 100
      else if leg.type = some "stock" then
        sign * (p - leg.price.getD (current_price.getD 0)) * quantity
      else 0)).sum)

/-- The per leg expiration payoff value once all required fields are
present: intrinsic value minus entry premium for options, price minus
entry for stock, signed by direction and scaled by quantity.  The contract
multiplier is applied afterwards to the summed curve, hence to every leg
kind. -/
noncomputable def legPayoffValue (current_price : Option ℝ) (leg : Leg) (p : ℝ) : ℝ :=
  let premium := leg.price.getD 0
  let quantity := leg.quantity.getD 1
  let sign : ℝ := if leg.position = some "long" then 1 else -1
  if leg.type = some "call" then sign * (max 0 (p - leg.strike.getD 0) - premium) * quantity
  else if leg.type = some "put" then
    sign * (max 0 (leg.strike.getD 0 - p) - premium) * quantity
  else if leg.type = some "stock" then
    sign * (p - leg.price.getD (current_price.getD 0)) * quantity
  else 0

/-- A leg that calculate_strategy_payoff can price without an exception:
an option leg carrying its strike, or a stock leg with an entry price or a
current price to fall back to. -/
def WellFormedLeg (current_price : Option ℝ) (leg : Leg) : Prop :=
  ((leg.type = some "call" ∨ leg.type = some "put") ∧ leg.strike.isSome = true) ∨
    (leg.type = some "stock" ∧
      (leg.price.isSome = true ∨ current_price.isSome = true))

/-- The per leg array of calculate_strategy_current_value,
utils/calculation.py lines 81 to 121.  Option legs price each point with
black_scholes on the leg implied volatility, defaulting to the volatility
argument, and report theoretical value minus entry premium; when the
strike is missing the per point computation raises a TypeError that the
intrinsic fallback of the inner except block raises again, so the loop
aborts on the first point: with a nonempty price range the result is an
error, with an empty one the loop body never runs.  Stock legs read
price_range[0] eagerly as the default purchase price, an IndexError on an
empty range, and otherwise report price minus purchase price.  Legs of
any other type contribute a zero array. -/
noncomputable def legCurrentValues (volatility risk_free_rate years_to_expiry : ℝ)
    (leg : Leg) (price_range : List ℝ) : Except String (List ℝ) :=
  let entry_premium := leg.price.getD 0
  let quantity := leg.quantity.getD 1
  let iv := leg.iv.getD volatility
  let sign : ℝ := if leg.position = some "long" then 1 else -1
  if leg.type = some "call" ∨ leg.type = some "put" then
    match leg.type, leg.strike with
    | some option_type, some strike =>
      Except.ok (price_range.map (fun p =>
        sign * (black_scholes option_type p strike years_to_expiry risk_free_rate iv
          - entry_premium) * quantity))
    | _, none =>
      match price_range with
      | [] => Except.ok []
      | _ :: _ => Except.error "TypeError"
    | none, _ => Except.ok (price_range.map (fun _ => 0))
  else if leg.type = some "stock" then
    match price_range with
    | [] => Except.error "IndexError"
    | p0 :: _ =>
      Except.ok (price_range.map (fun p => sign * (p - leg.price.getD p0) * quantity))
  else Except.ok (price_range.map (fun _ => 0))

/-- The leg loop of calculate_strategy_current_value, identical in shape
to the payoff loop. -/
noncomputable def currentValueFold (volatility risk_free_rate years_to_expiry : ℝ)
    (price_range : List ℝ) : List Leg → List ℝ → Except String (List ℝ)
  | [], values => Except.ok values
  | leg :: legs, values =>
    match legCurrentValues volatility risk_free_rate years_to_expiry leg price_range with
    | Except.error e => Except.error e
    | Except.ok arr =>
      currentValueFold volatility risk_free_rate years_to_expiry price_range legs
        (values.zipWith (fun a b => a + b) arr)

/-- Embedding of calculate_strategy_current_value from
utils/calculation.py: days are converted to years, each leg array is added
to a zero array, and the total is multiplied by the contract size 100.
The handle_calculation_error decorator re-raises for this function name
as well. -/
noncomputable def calculate_strategy_current_value (strategy_legs : List Leg)
    (price_range : List ℝ) (days_to_expiry risk_free_rate volatility : ℝ) :
    Except String (List ℝ) :=
  (currentValueFold volatility risk_free_rate (days_to_expiry / 365) price_range
      strategy_legs (List.replicate price_range.length 0)).map
    (List.map (fun v => v * 100))

/-- The sign change test of find_breakeven_points, utils/calculation.py
line 138: previous payoff at or below zero and current strictly above, or
previous at or above zero and current strictly below. -/
def pyCond (y0 y1 : ℝ) : Prop := (y0 ≤ 0 ∧ 0 < y1) ∨ (0 ≤ y0 ∧ y1 < 0)

/-- A strict sign change between adjacent samples, the notion used by
claim C7: strictly negative to strictly positive or conversely. -/
def strictSignChange (y0 y1 : ℝ) : Prop := (y0 < 0 ∧ 0 < y1) ∨ (0 < y0 ∧ y1 < 0)

open Classical in
/-- The scan of adjacent price and payoff pairs inside
find_breakeven_points: when the sign change test passes and the payoff
difference is nonzero, the linearly interpolated crossing price is
collected. -/
noncomputable def bePairs : List (ℝ × ℝ) → List ℝ
  | [] => []
  | [_] => []
  | (x0, y0) :: (x1, y1) :: rest =>
    (if pyCond y0 y1 ∧ y1 - y0 ≠ 0
      then [x0 + (x1 - x0) * (-y0) / (y1 - y0)] else []) ++
    bePairs ((x1, y1) :: rest)

/-- Embedding of find_breakeven_points from utils/calculation.py: scan
adjacent pairs and return the collected crossing prices sorted
ascending. -/
noncomputable def find_breakeven_points (price_range payoffs : List ℝ) : List ℝ :=
  (bePairs (price_range.zip payoffs)).mergeSort

/-- The volatility clamp of binomial_tree_price: nonpositive sigma becomes
0.0001. -/
noncomputable def binomSigma (sigma : ℝ) : ℝ := if sigma ≤ 0 then 0.0001 else sigma

/-- The up multiplier of the binomial lattice, models/pricing.py line 302:
exp of clamped sigma times the square root of the time step t / steps. -/
noncomputable def binomU (t sigma : ℝ) (steps : ℕ) : ℝ :=
  Real.exp (binomSigma sigma * Real.sqrt (t / (steps : ℝ)))

/-- The risk neutral up probability of the lattice, line 304:
(exp(r dt) - d) / (u - d) with d = 1 / u. -/
noncomputable def binomP (t r sigma : ℝ) (steps : ℕ) : ℝ :=
  (Real.exp (r * (t / (steps : ℝ))) - 1 / binomU t sigma steps) /
    (binomU t sigma steps - 1 / binomU t sigma steps)

/-- The per step discount factor exp(-r dt), line 305. -/
noncomputable def binomDisc (t r : ℝ) (steps : ℕ) : ℝ :=
  Real.exp (-(r * (t / (steps : ℝ))))

/-- Terminal option values of the binomial tree, models/pricing.py lines
308 to 316: node i of the final layer holds the intrinsic value at spot
S u^(steps-i) d^i. -/
noncomputable def binomTerminal (option_type : String) (S K u d : ℝ) (steps : ℕ) :
    List ℝ :=
  (List.range (steps + 1)).map (fun i =>
    if pyLower option_type = "call" then max 0 (S * u ^ (steps - i) * d ^ i - K)
    else max 0 (K - S * u ^ (steps - i) * d ^ i))

/-- One backward induction layer of the binomial tree, lines 319 to 332:
node i becomes the discounted expectation of its two children, and for
American exercise the maximum with the immediate intrinsic value at the
node spot.  The in place numpy update reads only indices i and i + 1 of
the previous layer before overwriting index i, so a fresh list is
equivalent. -/
noncomputable def binomStep (option_type : String) (S K u d p discount : ℝ)
    (american : Bool) (step : ℕ) (option_values : List ℝ) : List ℝ :=
  (List.range (step + 1)).map (fun i =>
    let spot := S * u ^ (step - i) * d ^ i
    let v := discount *
      (p * option_values.getD i 0 + (1 - p) * option_values.getD (i + 1) 0)
    if american then
      if pyLower option_type = "call" then max v (spot - K) else max v (K - spot)
    else v)

/-- The backward sweep: after j backward layers the current layer sits at
step index steps - j. -/
noncomputable def binomLayers (option_type : String) (S K u d p discount : ℝ)
    (american : Bool) (steps : ℕ) : ℕ → List ℝ
  | 0 => binomTerminal option_type S K u d steps
  | j + 1 =>
    binomStep option_type S K u d p discount american (steps - (j + 1))
      (binomLayers option_type S K u d p discount american steps j)

/-- Embedding of binomial_tree_price from models/pricing.py: intrinsic
value at or past expiry, otherwise the root value of the backward
induction over the recombining lattice. -/
noncomputable def binomial_tree_price (option_type : String) (S K t r sigma : ℝ)
    (steps : ℕ) (american : Bool) : ℝ :=
  if t ≤ 0 then
    if pyLower option_type = "call" then max 0 (S - K) else max 0 (K - S)
  else
    (binomLayers option_type S K (binomU t sigma steps) (1 / binomU t sigma steps)
        (binomP t r sigma steps) (binomDisc t r steps) american steps steps).getD 0 0

/-- C3: for call and put options the analytic price is non-negative, and
at or past expiry it equals the intrinsic value exactly. -/
theorem black_scholes_nonneg_and_expiry_intrinsic
    (option_type : String) (S K t r sigma : ℝ)
    (hot : option_type = "call" ∨ option_type = "put")
    (hS : 0 < S) (hK : 0 < K) :
    0 ≤ black_scholes option_type S K t r sigma ∧
      (t ≤ 0 → black_scholes option_type S K t r sigma =
        if option_type = "call" then max 0 (S - K) else max 0 (K - S)) := by
  have hcall : pyLower "call" = "call" := by decide
  have hput : pyLower "put" = "put" := by decide
  have hpc : pyLower "put" ≠ "call" := by decide
  constructor
  · unfold black_scholes
    rcases hot with h | h <;> subst h <;> split_ifs <;> simp [le_max_left]
  · intro ht
    unfold black_scholes
    rcases hot with h | h <;> subst h <;>
      simp [ht, hcall, hput, hpc]

/-- Witness for C3 at a concrete input. -/
theorem black_scholes_nonneg_and_expiry_intrinsic_witness :
    black_scholes "put" 90 100 0 0.05 0.2 = max 0 (100 - 90) :=
  ((black_scholes_nonneg_and_expiry_intrinsic "put" 90 100 0 0.05 0.2
      (Or.inr rfl) (by norm_num) (by norm_num)).2 (by norm_num)).trans
    (by rw [if_neg (by decide)])

/-- C10: with positive time to expiry and an option type that is neither
call nor put (after lowercasing, as the code compares), black_scholes does
not raise: the internal ValueError is swallowed by the except branch and
the put intrinsic value is returned. -/
theorem black_scholes_unknown_type_put_intrinsic
    (option_type : String) (S K t r sigma : ℝ)
    (ht : 0 < t)
    (hc : pyLower option_type ≠ "call") (hp : pyLower option_type ≠ "put") :
    black_scholes option_type S K t r sigma = max 0 (K - S) := by
  unfold black_scholes
  rw [if_neg (by linarith), if_neg hc, if_neg hp]

/-- Witness for C10 at a concrete input. -/
theorem black_scholes_unknown_type_put_intrinsic_witness :
    black_scholes "banana" 100 110 1 0.03 0.3 = max 0 (110 - 100) :=
  black_scholes_unknown_type_put_intrinsic "banana" 100 110 1 0.03 0.3
    (by norm_num) (by decide) (by decide)

/-- The bisection loop stays inside its initial bracket. -/
theorem bisectLoop_mem (option_type : String) (S K t r mp prec : ℝ) :
    ∀ (n : ℕ) (lo hi : ℝ), lo ≤ hi →
      bisectLoop option_type S K t r mp prec n lo hi ∈ Set.Icc lo hi := by
  intro n
  induction n with
  | zero =>
    intro lo hi h
    constructor <;> simp only [bisectLoop] <;> linarith
  | succ n ih =>
    intro lo hi h
    have hmid1 : lo ≤ (lo + hi) / 2 := by linarith
    have hmid2 : (lo + hi) / 2 ≤ hi := by linarith
    simp only [bisectLoop]
    split_ifs with h1 h2
    · exact ⟨hmid1, hmid2⟩
    · have := ih ((lo + hi) / 2) hi hmid2
      exact ⟨le_trans hmid1 this.1, this.2⟩
    · have := ih lo ((lo + hi) / 2) hmid1
      exact ⟨this.1, le_trans this.2 hmid2⟩

/-- C4: on every execution path the implied volatility solver returns a
value inside the closed interval from 0.0001 to 5.0, and any market price
strictly below the intrinsic value of the option yields exactly the floor
0.0001. -/
theorem calculate_implied_volatility_bounds (option_type : String)
    (S K t r market_price : ℝ) (newton : Option ℝ) :
    calculate_implied_volatility option_type S K t r market_price newton ∈
      Set.Icc (0.0001 : ℝ) 5.0 ∧
    (market_price <
        (if pyLower option_type = "call" then max 0 (S - K) else max 0 (K - S)) →
      calculate_implied_volatility option_type S K t r market_price newton = 0.0001) := by
  have floor_mem : (0.0001 : ℝ) ∈ Set.Icc (0.0001 : ℝ) 5.0 := by
    constructor <;> norm_num
  constructor
  · unfold calculate_implied_volatility
    by_cases h1 : market_price ≤ 0
    · rw [if_pos h1]; exact floor_mem
    rw [if_neg h1]
    by_cases h2 : market_price <
        (if pyLower option_type = "call" then max 0 (S - K) else max 0 (K - S))
    · rw [if_pos h2]; exact floor_mem
    rw [if_neg h2]
    match newton with
    | some x =>
      refine ⟨le_max_left _ _, ?_⟩
      simp only [max_le_iff]
      exact ⟨by norm_num, min_le_right _ _⟩
    | none =>
      unfold calculate_iv_bisection
      rw [if_neg (by norm_num)]
      by_cases hlo : market_price ≤ black_scholes option_type S K t r 0.0001
      · rw [if_pos hlo]; exact floor_mem
      rw [if_neg hlo]
      by_cases hhi : black_scholes option_type S K t r 5.0 ≤ market_price
      · rw [if_pos hhi]; constructor <;> norm_num
      rw [if_neg hhi]
      exact bisectLoop_mem option_type S K t r market_price 0.0001 100
        0.0001 5.0 (by norm_num)
  · intro hlt
    unfold calculate_implied_volatility
    by_cases h1 : market_price ≤ 0
    · rw [if_pos h1]
    · rw [if_neg h1, if_pos hlt]

/-- Witness for C4: a market price of 10 on a call with spot 100 and
strike 50 is below the intrinsic value 50, so the solver returns the
floor. -/
theorem calculate_implied_volatility_bounds_witness :
    calculate_implied_volatility "call" 100 50 1 0.03 10 none = 0.0001 :=
  (calculate_implied_volatility_bounds "call" 100 50 1 0.03 10 none).2
    (by rw [if_pos (by decide)]; norm_num)

/-- C9: the iron condor constructor raises a structural error exactly when
the strike order long put < short put < short call < long call is
violated, and otherwise returns the four legs long put, short put, short
call, long call with the given strikes unchanged. -/
theorem iron_condor_strike_order (lps sps scs lcs : ℝ) (expiration : String)
    (lpp spp scp lcp : ℝ) (clpp cspp cscp clcp : Option ℝ) (quantity : ℝ)
    (lpiv spiv sciv lciv : ℝ) :
    ((∃ e, iron_condor lps sps scs lcs expiration lpp spp scp lcp
        clpp cspp cscp clcp quantity lpiv spiv sciv lciv = Except.error e) ↔
      ¬(lps < sps ∧ sps < scs ∧ scs < lcs)) ∧
    (lps < sps ∧ sps < scs ∧ scs < lcs →
      iron_condor lps sps scs lcs expiration lpp spp scp lcp
        clpp cspp cscp clcp quantity lpiv spiv sciv lciv =
      Except.ok
        [{ type := some "put", position := some "long", strike := some lps,
           expiry := some expiration, price := some lpp,
           current_price := some (clpp.getD lpp),
           quantity := some quantity, iv := some lpiv },
         { type := some "put", position := some "short", strike := some sps,
           expiry := some expiration, price := some spp,
           current_price := some (cspp.getD spp),
           quantity := some quantity, iv := some spiv },
         { type := some "call", position := some "short", strike := some scs,
           expiry := some expiration, price := some scp,
           current_price := some (cscp.getD scp),
           quantity := some quantity, iv := some sciv },
         { type := some "call", position := some "long", strike := some lcs,
           expiry := some expiration, price := some lcp,
           current_price := some (clcp.getD lcp),
           quantity := some quantity, iv := some lciv }]) := by
  constructor
  · constructor
    · rintro ⟨e, he⟩ horder
      rw [iron_condor, if_neg (by exact not_not_intro horder)] at he
      exact Except.noConfusion he
    · intro horder
      exact ⟨_, by rw [iron_condor, if_pos horder]⟩
  · intro horder
    rw [iron_condor, if_neg (by exact not_not_intro horder)]

/-- Witness for C9: with ordered strikes 40, 45, 55, 60 the four legs are
returned with those strikes. -/
theorem iron_condor_strike_order_witness :
    iron_condor 40 45 55 60 "2025-06-20" 1 2 2 1 none none none none 1 0.3 0.3 0.3 0.3 =
      Except.ok
        [{ type := some "put", position := some "long", strike := some 40,
           expiry := some "2025-06-20", price := some 1,
           current_price := some ((none : Option ℝ).getD 1),
           quantity := some 1, iv := some 0.3 },
         { type := some "put", position := some "short", strike := some 45,
           expiry := some "2025-06-20", price := some 2,
           current_price := some ((none : Option ℝ).getD 2),
           quantity := some 1, iv := some 0.3 },
         { type := some "call", position := some "short", strike := some 55,
           expiry := some "2025-06-20", price := some 2,
           current_price := some ((none : Option ℝ).getD 2),
           quantity := some 1, iv := some 0.3 },
         { type := some "call", position := some "long", strike := some 60,
           expiry := some "2025-06-20", price := some 1,
           current_price := some ((none : Option ℝ).getD 1),
           quantity := some 1, iv := some 0.3 }] :=
  (iron_condor_strike_order 40 45 55 60 "2025-06-20" 1 2 2 1 none none none none
      1 0.3 0.3 0.3 0.3).2 (by norm_num)

/-- A well formed leg never raises and produces its payoff value. -/
theorem legPayoffTerm_ok (current_price : Option ℝ) (leg : Leg) (p : ℝ)
    (h : WellFormedLeg current_price leg) :
    legPayoffTerm current_price leg p = Except.ok (legPayoffValue current_price leg p) := by
  rcases h with ⟨hty, hstrike⟩ | ⟨hty, hprice⟩
  · rcases Option.isSome_iff_exists.mp hstrike with ⟨k, hk⟩
    rcases hty with h | h <;>
      simp [legPayoffTerm, legPayoffValue, h, hk]
  · have hcp : leg.type ≠ some "call" := by simp [hty]
    have hpp : leg.type ≠ some "put" := by simp [hty]
    rcases hprice with h | h
    · rcases Option.isSome_iff_exists.mp h with ⟨v, hv⟩
      simp [legPayoffTerm, legPayoffValue, hty, hcp, hpp, hv]
    · rcases Option.isSome_iff_exists.mp h with ⟨v, hv⟩
      cases hp : leg.price with
      | some w => simp [legPayoffTerm, legPayoffValue, hty, hcp, hpp, hp]
      | none => simp [legPayoffTerm, legPayoffValue, hty, hcp, hpp, hp, hv]

/-- A well formed leg yields the mapped payoff array. -/
theorem legPayoffs_ok (current_price : Option ℝ) (leg : Leg) (price_range : List ℝ)
    (h : WellFormedLeg current_price leg) :
    legPayoffs current_price leg price_range =
      Except.ok (price_range.map (legPayoffValue current_price leg)) := by
  induction price_range with
  | nil => rfl
  | cons p ps ih =>
    rw [legPayoffs, legPayoffTerm_ok current_price leg p h, ih]
    rfl

/-- Pointwise addition of two mapped arrays is the map of the sum. -/
theorem zipWith_add_map (f g : ℝ → ℝ) (l : List ℝ) :
    (l.map f).zipWith (fun a b => a + b) (l.map g) = l.map (fun p => f p + g p) := by
  induction l with
  | nil => rfl
  | cons x xs ih => simp [ih]

/-- The leg loop of calculate_strategy_payoff evaluated on well formed
legs, with the accumulator generalised to a mapped array. -/
theorem payoffFold_ok (current_price : Option ℝ) (price_range : List ℝ) :
    ∀ (strategy_legs : List Leg) (f : ℝ → ℝ),
      (∀ leg ∈ strategy_legs, WellFormedLeg current_price leg) →
      payoffFold current_price price_range strategy_legs (price_range.map f) =
      Except.ok (price_range.map (fun p =>
        f p + (strategy_legs.map (fun leg => legPayoffValue current_price leg p)).sum)) := by
  intro strategy_legs
  induction strategy_legs with
  | nil => intro f _; simp [payoffFold]
  | cons leg legs ih =>
    intro f hwf
    rw [payoffFold, legPayoffs_ok current_price leg price_range
      (hwf leg (List.mem_cons_self leg legs))]
    dsimp only
    rw [zipWith_add_map]
    rw [ih (fun p => f p + legPayoffValue current_price leg p)
      (fun l hl => hwf l (List.mem_cons_of_mem leg hl))]
    simp [add_assoc]

/-- Counterexample to C1 as stated: a single long stock leg bought at 50
and evaluated at price 51 produces 100 in the code, because the contract
multiplier is applied to the whole summed curve, stock legs included,
while the claimed formula without the multiplier on stock gives 1. -/
theorem calculate_strategy_payoff_stock_multiplier_counterexample :
    calculate_strategy_payoff
        [{ type := some "stock", position := some "long", strike := none,
           expiry := none, price := some 50, current_price := none,
           quantity := some 1, iv := none }] [51] none =
      Except.ok [100] ∧
    claimedPayoffC1
        [{ type := some "stock", position := some "long", strike := none,
           expiry := none, price := some 50, current_price := none,
           quantity := some 1, iv := none }] [51] none = [1] ∧
    ¬ calculate_strategy_payoff
        [{ type := some "stock", position := some "long", strike := none,
           expiry := none, price := some 50, current_price := none,
           quantity := some 1, iv := none }] [51] none =
      Except.ok (claimedPayoffC1
        [{ type := some "stock", position := some "long", strike := none,
           expiry := none, price := some 50, current_price := none,
           quantity := some 1, iv := none }] [51] none) := by
  have h1 : calculate_strategy_payoff
      [{ type := some "stock", position := some "long", strike := none,
         expiry := none, price := some 50, current_price := none,
         quantity := some 1, iv := none }] [51] none = Except.ok [100] := by
    simp [calculate_strategy_payoff, payoffFold, legPayoffs, legPayoffTerm,
      Except.map]
    norm_num
  have h2 : claimedPayoffC1
      [{ type := some "stock", position := some "long", strike := none,
         expiry := none, price := some 50, current_price := none,
         quantity := some 1, iv := none }] [51] none = [1] := by
    simp [claimedPayoffC1]
    norm_num
  refine ⟨h1, h2, ?_⟩
  rw [h1, h2]
  intro h
  have h100 : (100 : ℝ) = 1 := by simpa using Except.ok.inj h
  norm_num at h100

/-- C1 amended: the expiration payoff is, summed over legs, the intrinsic
payoff minus the entry premium for option legs and price minus entry for
stock legs, signed by direction and scaled by quantity, with the 100 unit
contract multiplier applied to every leg, stock legs included. -/
theorem calculate_strategy_payoff_formula (strategy_legs : List Leg)
    (price_range : List ℝ) (current_price : Option ℝ)
    (hwf : ∀ leg ∈ strategy_legs, WellFormedLeg current_price leg) :
    calculate_strategy_payoff strategy_legs price_range current_price =
      Except.ok (price_range.map (fun p =>
        (strategy_legs.map (fun leg => legPayoffValue current_price leg p)).sum * 100)) := by
  rw [calculate_strategy_payoff]
  rw [show (List.replicate price_range.length (0 : ℝ)) =
      price_range.map (fun _ => 0) by simp [List.map_const]]
  rw [payoffFold_ok current_price price_range strategy_legs (fun _ => 0) hwf]
  simp [Except.map]

/-- Witness for amended C1: a long call with strike 100 bought at 5,
evaluated at price 90, loses the 5 premium times the 100 multiplier. -/
theorem calculate_strategy_payoff_formula_witness :
    calculate_strategy_payoff
        [{ type := some "call", position := some "long", strike := some 100,
           expiry := none, price := some 5, current_price := none,
           quantity := some 1, iv := none }] [90] none = Except.ok [-500] := by
  rw [calculate_strategy_payoff_formula _ _ none
    (by intro l hl; simp at hl; subst hl; exact Or.inl ⟨Or.inl rfl, rfl⟩)]
  simp [legPayoffValue]
  norm_num

/-- Counterexample to C2 as stated: a strategy holding one leg of type
call with a missing strike makes calculate_strategy_payoff raise a
TypeError that the handle_calculation_error decorator re-raises, because
the function name matches none of its fallback categories; no all zero
curve is returned.  The same input also makes
calculate_strategy_current_value raise. -/
theorem malformed_leg_raises_counterexample :
    calculate_strategy_payoff
        [{ type := some "call", position := some "long", strike := none,
           expiry := none, price := some 1, current_price := none,
           quantity := some 1, iv := none }] [100] none =
      Except.error "TypeError" ∧
    ¬ calculate_strategy_payoff
        [{ type := some "call", position := some "long", strike := none,
           expiry := none, price := some 1, current_price := none,
           quantity := some 1, iv := none }] [100] none = Except.ok [0] ∧
    calculate_strategy_current_value
        [{ type := some "call", position := some "long", strike := none,
           expiry := none, price := some 1, current_price := none,
           quantity := some 1, iv := none }] [100] 30 0.03 0.3 =
      Except.error "TypeError" := by
  refine ⟨?_, ?_, ?_⟩
  · simp [calculate_strategy_payoff, payoffFold, legPayoffs, legPayoffTerm, Except.map]
  · simp [calculate_strategy_payoff, payoffFold, legPayoffs, legPayoffTerm, Except.map]
  · simp [calculate_strategy_current_value, currentValueFold, legCurrentValues, Except.map]

/-- C2 amended: for every price vector both calculators return an all zero
curve of the same length on an empty strategy, but a malformed strategy
whose leg has type call and no strike raises a TypeError through both
calculators whenever the price vector is nonempty, instead of returning a
zero curve. -/
theorem empty_strategy_zero_curve_and_malformed_raises
    (price_range : List ℝ) (current_price : Option ℝ)
    (days_to_expiry risk_free_rate volatility : ℝ) (leg : Leg)
    (hty : leg.type = some "call") (hstrike : leg.strike = none)
    (hnonempty : price_range ≠ []) :
    calculate_strategy_payoff [] price_range current_price =
      Except.ok (List.replicate price_range.length 0) ∧
    calculate_strategy_current_value [] price_range days_to_expiry
        risk_free_rate volatility =
      Except.ok (List.replicate price_range.length 0) ∧
    calculate_strategy_payoff [leg] price_range current_price =
      Except.error "TypeError" ∧
    calculate_strategy_current_value [leg] price_range days_to_expiry
        risk_free_rate volatility =
      Except.error "TypeError" := by
  refine ⟨?_, ?_, ?_, ?_⟩
  · simp [calculate_strategy_payoff, payoffFold, Except.map]
  · simp [calculate_strategy_current_value, currentValueFold, Except.map]
  · match price_range, hnonempty with
    | p :: ps, _ =>
      simp [calculate_strategy_payoff, payoffFold, legPayoffs, legPayoffTerm,
        hty, hstrike, Except.map]
  · match price_range, hnonempty with
    | p :: ps, _ =>
      simp [calculate_strategy_current_value, currentValueFold, legCurrentValues,
        hty, hstrike, Except.map]

/-- Witness for amended C2 at concrete inputs. -/
theorem empty_strategy_zero_curve_and_malformed_raises_witness :
    calculate_strategy_payoff [] [95, 100, 105] none =
      Except.ok (List.replicate 3 0) ∧
    calculate_strategy_payoff
        [{ type := some "call", position := some "short", strike := none,
           expiry := none, price := some 2, current_price := none,
           quantity := some 1, iv := none }] [95, 100, 105] none =
      Except.error "TypeError" := by
  have h := empty_strategy_zero_curve_and_malformed_raises [95, 100, 105] none 30 0.03 0.3
    { type := some "call", position := some "short", strike := none,
      expiry := none, price := some 2, current_price := none,
      quantity := some 1, iv := none } rfl rfl (by simp)
  exact ⟨h.1, h.2.2.1⟩

/-- Under nonzero payoffs the code test coincides with a strict sign
change. -/
theorem pyCond_iff_strictSignChange (y0 y1 : ℝ) (h0 : y0 ≠ 0) (h1 : y1 ≠ 0) :
    pyCond y0 y1 ↔ strictSignChange y0 y1 := by
  unfold pyCond strictSignChange
  constructor
  · rintro (⟨a, b⟩ | ⟨a, b⟩)
    · exact Or.inl ⟨lt_of_le_of_ne a h0, b⟩
    · exact Or.inr ⟨lt_of_le_of_ne a (Ne.symm h0), b⟩
  · rintro (⟨a, b⟩ | ⟨a, b⟩)
    · exact Or.inl ⟨le_of_lt a, b⟩
    · exact Or.inr ⟨le_of_lt a, b⟩

/-- A strict sign change has a nonzero payoff difference. -/
theorem strictSignChange_sub_ne (y0 y1 : ℝ) (h : strictSignChange y0 y1) :
    y1 - y0 ≠ 0 := by
  rcases h with ⟨a, b⟩ | ⟨a, b⟩ <;> intro hc <;> nlinarith

/-- When no adjacent pair passes the code test the scan collects
nothing. -/
theorem bePairs_eq_nil :
    ∀ (payoffs price_range : List ℝ), price_range.length = payoffs.length →
      (∀ k, k + 1 < payoffs.length →
        ¬ pyCond (payoffs.getD k 0) (payoffs.getD (k + 1) 0)) →
      bePairs (price_range.zip payoffs) = [] := by
  intro payoffs
  induction payoffs with
  | nil => intro pr _ _; simp [bePairs]
  | cons y0 tail ih =>
    intro pr hlen hnc
    match tail, pr with
    | _, [] => simp [bePairs]
    | [], x0 :: pr' => simp [bePairs]
    | y1 :: po', x0 :: pr' =>
      match pr' with
      | [] => simp at hlen
      | x1 :: pr'' =>
        show bePairs ((x0, y0) :: (x1, y1) :: (pr''.zip po')) = []
        have hng : ¬ (pyCond y0 y1 ∧ y1 - y0 ≠ 0) :=
          fun hc => hnc 0 (by simp) (by simpa using hc.1)
        rw [bePairs, if_neg hng, List.nil_append]
        exact ih (x1 :: pr'') (by simpa using hlen)
          (fun k hk hck => hnc (k + 1) (by simpa using hk) (by simpa using hck))

/-- The scan of a uniquely strictly crossing payoff vector with no zero
samples collects exactly the one interpolated crossing. -/
theorem bePairs_single (i : ℕ) :
    ∀ price_range payoffs : List ℝ, price_range.length = payoffs.length →
      (∀ y ∈ payoffs, y ≠ 0) →
      i + 1 < payoffs.length →
      strictSignChange (payoffs.getD i 0) (payoffs.getD (i + 1) 0) →
      (∀ j, j + 1 < payoffs.length →
        strictSignChange (payoffs.getD j 0) (payoffs.getD (j + 1) 0) → j = i) →
      bePairs (price_range.zip payoffs) =
        [price_range.getD i 0 +
          (price_range.getD (i + 1) 0 - price_range.getD i 0) *
            (-(payoffs.getD i 0)) / (payoffs.getD (i + 1) 0 - payoffs.getD i 0)] := by
  induction i with
  | zero =>
    intro pr po hlen hnz hi hchange huniq
    match po, pr with
    | [], _ => simp at hi
    | [y0], _ => simp at hi
    | y0 :: y1 :: po', [] => simp at hlen
    | y0 :: y1 :: po', [x0] => simp at hlen
    | y0 :: y1 :: po', x0 :: x1 :: pr' =>
      have h0 : y0 ≠ 0 := hnz y0 (by simp)
      have h1 : y1 ≠ 0 := hnz y1 (by simp)
      have hch : strictSignChange y0 y1 := by simpa using hchange
      have hcd : pyCond y0 y1 := (pyCond_iff_strictSignChange y0 y1 h0 h1).mpr hch
      have hsub : y1 - y0 ≠ 0 := strictSignChange_sub_ne y0 y1 hch
      show bePairs ((x0, y0) :: (x1, y1) :: (pr'.zip po')) = _
      rw [bePairs, if_pos ⟨hcd, hsub⟩]
      rw [← List.zip_cons_cons,
        bePairs_eq_nil (y1 :: po') (x1 :: pr') (by simpa using hlen) ?_]
      · simp
      · intro k hk hck
        have hm0 : (y1 :: po').getD k 0 ∈ y0 :: y1 :: po' := by
          rw [List.getD_eq_getElem (y1 :: po') 0 (by omega)]
          exact List.mem_cons_of_mem y0 (List.getElem_mem (by omega))
        have hm1 : (y1 :: po').getD (k + 1) 0 ∈ y0 :: y1 :: po' := by
          rw [List.getD_eq_getElem (y1 :: po') 0 (by omega)]
          exact List.mem_cons_of_mem y0 (List.getElem_mem (by omega))
        have := huniq (k + 1) (by simpa using hk)
          (by simpa using (pyCond_iff_strictSignChange _ _
            (hnz _ hm0) (hnz _ hm1)).mp hck)
        omega
  | succ i ih =>
    intro pr po hlen hnz hi hchange huniq
    match po, pr with
    | [], _ => simp at hi
    | [y0], _ => simp at hi
    | y0 :: y1 :: po', [] => simp at hlen
    | y0 :: y1 :: po', [x0] => simp at hlen
    | y0 :: y1 :: po', x0 :: x1 :: pr' =>
      have h0 : y0 ≠ 0 := hnz y0 (by simp)
      have h1 : y1 ≠ 0 := hnz y1 (by simp)
      have hhead : ¬ (pyCond y0 y1 ∧ y1 - y0 ≠ 0) := by
        intro hc
        have hch : strictSignChange y0 y1 :=
          (pyCond_iff_strictSignChange y0 y1 h0 h1).mp hc.1
        have := huniq 0 (by simp) (by simpa using hch)
        omega
      show bePairs ((x0, y0) :: (x1, y1) :: (pr'.zip po')) = _
      rw [bePairs, if_neg hhead, List.nil_append]
      have := ih (x1 :: pr') (y1 :: po') (by simpa using hlen)
        (fun y hy => hnz y (List.mem_cons_of_mem y0 hy))
        (by simpa using hi)
        (by simpa using hchange)
        (fun j hj hcj => by
          have := huniq (j + 1) (by simpa using hj) (by simpa using hcj)
          omega)
      simpa using this

/-- The interpolated crossing of a passing adjacent pair is collected by
the scan. -/
theorem bePairs_mem (i : ℕ) :
    ∀ price_range payoffs : List ℝ, price_range.length = payoffs.length →
      i + 1 < payoffs.length →
      pyCond (payoffs.getD i 0) (payoffs.getD (i + 1) 0) →
      payoffs.getD (i + 1) 0 - payoffs.getD i 0 ≠ 0 →
      (price_range.getD i 0 +
        (price_range.getD (i + 1) 0 - price_range.getD i 0) *
          (-(payoffs.getD i 0)) / (payoffs.getD (i + 1) 0 - payoffs.getD i 0)) ∈
        bePairs (price_range.zip payoffs) := by
  induction i with
  | zero =>
    intro pr po hlen hi hcd hsub
    match po, pr with
    | [], _ => simp at hi
    | [y0], _ => simp at hi
    | y0 :: y1 :: po', [] => simp at hlen
    | y0 :: y1 :: po', [x0] => simp at hlen
    | y0 :: y1 :: po', x0 :: x1 :: pr' =>
      show _ ∈ bePairs ((x0, y0) :: (x1, y1) :: (pr'.zip po'))
      rw [bePairs, if_pos ⟨by simpa using hcd, by simpa using hsub⟩]
      simp
  | succ i ih =>
    intro pr po hlen hi hcd hsub
    match po, pr with
    | [], _ => simp at hi
    | [y0], _ => simp at hi
    | y0 :: y1 :: po', [] => simp at hlen
    | y0 :: y1 :: po', [x0] => simp at hlen
    | y0 :: y1 :: po', x0 :: x1 :: pr' =>
      show _ ∈ bePairs ((x0, y0) :: (x1, y1) :: (pr'.zip po'))
      rw [bePairs]
      refine List.mem_append_right _ ?_
      have := ih (x1 :: pr') (y1 :: po') (by simpa using hlen)
        (by simpa using hi) (by simpa using hcd) (by simpa using hsub)
      simpa using this

/-- The scan collects nothing from a strictly positive payoff curve. -/
theorem bePairs_eq_nil_of_pos :
    ∀ xs : List (ℝ × ℝ), (∀ q ∈ xs, 0 < q.2) → bePairs xs = [] := by
  intro xs
  induction xs with
  | nil => intro _; rfl
  | cons a tail ih =>
    intro hpos
    match a, tail with
    | _, [] => rfl
    | (x0, y0), (x1, y1) :: rest =>
      have h0 : 0 < y0 := hpos (x0, y0) (by simp)
      have h1 : 0 < y1 := hpos (x1, y1) (by simp)
      have hng : ¬ (pyCond y0 y1 ∧ y1 - y0 ≠ 0) := by
        rintro ⟨⟨a, b⟩ | ⟨a, b⟩, _⟩ <;> linarith
      rw [bePairs, if_neg hng, List.nil_append]
      exact ih (fun q hq => hpos q (List.mem_cons_of_mem _ hq))

/-- Counterexample to C7 as stated: the ascending prices 0, 1, 2, 3 with
payoffs 1, -1, 0, 5 have exactly one strict sign change, at the first
adjacent pair, yet the code returns two breakeven points: the zero touch
pair from 0 to 5 also passes the sign change test and contributes the
sample price 2 in addition to the interpolated 0.5. -/
theorem find_breakeven_points_unique_crossing_counterexample :
    List.Sorted (fun a b : ℝ => a ≤ b) [0, 1, 2, 3] ∧
    strictSignChange (([1, -1, 0, 5] : List ℝ).getD 0 0)
      (([1, -1, 0, 5] : List ℝ).getD 1 0) ∧
    (∀ j, j + 1 < ([1, -1, 0, 5] : List ℝ).length →
      strictSignChange (([1, -1, 0, 5] : List ℝ).getD j 0)
        (([1, -1, 0, 5] : List ℝ).getD (j + 1) 0) → j = 0) ∧
    (find_breakeven_points [0, 1, 2, 3] [1, -1, 0, 5]).length = 2 := by
  refine ⟨?_, ?_, ?_, ?_⟩
  · norm_num [List.sorted_cons]
  · right
    norm_num
  · intro j hj hc
    have hj3 : j < 3 := by simp at hj; omega
    interval_cases j
    · rfl
    · rw [strictSignChange] at hc
      norm_num at hc
    · rw [strictSignChange] at hc
      norm_num at hc
  · have hz : ([0,1,2,3] : List ℝ).zip ([1,-1,0,5] : List ℝ) =
        [(0,1),(1,-1),(2,0),(3,5)] := rfl
    have hb : bePairs [((0:ℝ),(1:ℝ)),(1,-1),(2,0),(3,5)] = [1/2, 2] := by
      norm_num [bePairs, pyCond]
    rw [find_breakeven_points, hz, hb]
    simp

/-- C7 amended: for an ascending price vector and a payoff vector with no
zero samples and exactly one strict sign change, the finder returns
exactly the one linearly interpolated breakeven; a strictly positive
payoff curve yields no breakeven; every result list is sorted
ascending. -/
theorem find_breakeven_points_spec :
    (∀ (price_range payoffs : List ℝ) (i : ℕ),
      price_range.length = payoffs.length →
      List.Sorted (fun a b : ℝ => a ≤ b) price_range →
      (∀ y ∈ payoffs, y ≠ 0) →
      i + 1 < payoffs.length →
      strictSignChange (payoffs.getD i 0) (payoffs.getD (i + 1) 0) →
      (∀ j, j + 1 < payoffs.length →
        strictSignChange (payoffs.getD j 0) (payoffs.getD (j + 1) 0) → j = i) →
      find_breakeven_points price_range payoffs =
        [price_range.getD i 0 +
          (price_range.getD (i + 1) 0 - price_range.getD i 0) *
            (-(payoffs.getD i 0)) / (payoffs.getD (i + 1) 0 - payoffs.getD i 0)]) ∧
    (∀ price_range payoffs : List ℝ, (∀ y ∈ payoffs, 0 < y) →
      find_breakeven_points price_range payoffs = []) ∧
    (∀ price_range payoffs : List ℝ,
      List.Sorted (fun a b : ℝ => a ≤ b) (find_breakeven_points price_range payoffs)) := by
  refine ⟨?_, ?_, ?_⟩
  · intro pr po i hlen _ hnz hi hchange huniq
    rw [find_breakeven_points, bePairs_single i pr po hlen hnz hi hchange huniq]
    simp
  · intro pr po hpos
    rw [find_breakeven_points, bePairs_eq_nil_of_pos _
      (fun q hq => hpos q.2 (List.of_mem_zip hq).2)]
    simp
  · intro pr po
    exact List.sorted_mergeSort' _

/-- Witness for amended C7: payoffs from -1 to 1 over prices 0 to 1 cross
once and the finder returns the interpolated half point. -/
theorem find_breakeven_points_spec_witness :
    find_breakeven_points [0, 1] [-1, 1] = [1/2] := by
  have h := find_breakeven_points_spec.1 [0, 1] [-1, 1] 0 rfl
    (by norm_num [List.sorted_cons])
    (by intro y hy; simp at hy; rcases hy with h | h <;> rw [h] <;> norm_num)
    (by norm_num)
    (by left; norm_num)
    (by intro j hj _; simp at hj; omega)
  rw [h]
  norm_num

/-- Counterexample to C8 as stated: the payoff 5 then 0 places a zero at
the final position right after a nonzero sample, yet the scan only fires
when the zero is the left element of a pair, so no breakeven at the zero
sample price 1 is reported; the result is empty. -/
theorem find_breakeven_points_zero_touch_counterexample :
    (([5, 0] : List ℝ).getD 1 0 = 0 ∧ ([5, 0] : List ℝ).getD 0 0 ≠ 0) ∧
    find_breakeven_points [0, 1] [5, 0] = [] ∧
    ¬ ((1 : ℝ) ∈ find_breakeven_points [0, 1] [5, 0]) := by
  have hb : find_breakeven_points [0, 1] [5, 0] = [] := by
    have hz : ([0,1] : List ℝ).zip ([5,0] : List ℝ) = [(0,5),(1,0)] := rfl
    have := bePairs_eq_nil_of_pos [((0:ℝ),(5:ℝ))] (by intro q hq; simp at hq; simp [hq])
    rw [find_breakeven_points, hz]
    rw [show bePairs [((0:ℝ),(5:ℝ)),(1,0)] = [] by norm_num [bePairs, pyCond]]
    simp
  refine ⟨⟨by norm_num, by norm_num⟩, hb, ?_⟩
  rw [hb]
  simp

/-- C8 amended: whenever a sample payoff is exactly zero and the next
sample payoff is nonzero, the finder reports a breakeven at exactly the
zero sample price; a zero sample whose only nonzero neighbour is on its
left, such as a trailing zero, is not detected. -/
theorem find_breakeven_points_zero_touch (price_range payoffs : List ℝ) (i : ℕ)
    (hlen : price_range.length = payoffs.length) (hi : i + 1 < payoffs.length)
    (h0 : payoffs.getD i 0 = 0) (h1 : payoffs.getD (i + 1) 0 ≠ 0) :
    price_range.getD i 0 ∈ find_breakeven_points price_range payoffs := by
  have hcd : pyCond (payoffs.getD i 0) (payoffs.getD (i + 1) 0) := by
    rw [h0]
    rcases lt_or_gt_of_ne h1 with h | h
    · exact Or.inr ⟨le_refl 0, h⟩
    · exact Or.inl ⟨le_refl 0, h⟩
  have hsub : payoffs.getD (i + 1) 0 - payoffs.getD i 0 ≠ 0 := by
    rw [h0]
    simpa using h1
  have hm := bePairs_mem i price_range payoffs hlen hi hcd hsub
  rw [h0] at hm
  rw [find_breakeven_points, List.mem_mergeSort]
  simpa using hm

/-- Witness for amended C8: a zero payoff at price 10 followed by the
nonzero payoff 3 puts the breakeven 10 in the result. -/
theorem find_breakeven_points_zero_touch_witness :
    (10 : ℝ) ∈ find_breakeven_points [10, 20] [0, 3] := by
  have h := find_breakeven_points_zero_touch [10, 20] [0, 3] 0 rfl
    (by norm_num) (by norm_num) (by norm_num)
  simpa using h

/-- Reading a mapped range list at an index. -/
theorem getD_map_range (n : ℕ) (f : ℕ → ℝ) (i : ℕ) :
    ((List.range n).map f).getD i 0 = if i < n then f i else 0 := by
  by_cases h : i < n
  · rw [if_pos h, List.getD_eq_getElem _ _ (by simpa using h)]
    simp
  · rw [if_neg h, List.getD_eq_default]
    simpa using h

/-- A European backward step is monotone in the layer and dominated by the
American step, provided the up probability is a probability and the
discount is nonnegative. -/
theorem binomStep_euro_le_amer (option_type : String) (S K u d p discount : ℝ)
    (hp0 : 0 ≤ p) (hp1 : p ≤ 1) (hd : 0 ≤ discount) (step : ℕ) (xs ys : List ℝ)
    (h : ∀ i, xs.getD i 0 ≤ ys.getD i 0) (i : ℕ) :
    (binomStep option_type S K u d p discount false step xs).getD i 0 ≤
      (binomStep option_type S K u d p discount true step ys).getD i 0 := by
  rw [binomStep, binomStep, getD_map_range, getD_map_range]
  by_cases hi : i < step + 1
  · rw [if_pos hi, if_pos hi]
    simp only [Bool.false_eq_true, if_false, if_true]
    have hmono : discount * (p * xs.getD i 0 + (1 - p) * xs.getD (i + 1) 0) ≤
        discount * (p * ys.getD i 0 + (1 - p) * ys.getD (i + 1) 0) := by
      have e1 : p * xs.getD i 0 ≤ p * ys.getD i 0 :=
        mul_le_mul_of_nonneg_left (h i) hp0
      have e2 : (1 - p) * xs.getD (i + 1) 0 ≤ (1 - p) * ys.getD (i + 1) 0 :=
        mul_le_mul_of_nonneg_left (h (i + 1)) (by linarith)
      exact mul_le_mul_of_nonneg_left (add_le_add e1 e2) hd
    split_ifs
    · exact le_trans hmono (le_max_left _ _)
    · exact le_trans hmono (le_max_left _ _)
  · rw [if_neg hi, if_neg hi]

/-- Pointwise, every American layer dominates the European layer. -/
theorem binomLayers_euro_le_amer (option_type : String) (S K u d p discount : ℝ)
    (hp0 : 0 ≤ p) (hp1 : p ≤ 1) (hd : 0 ≤ discount) (steps : ℕ) :
    ∀ j i, (binomLayers option_type S K u d p discount false steps j).getD i 0 ≤
      (binomLayers option_type S K u d p discount true steps j).getD i 0 := by
  intro j
  induction j with
  | zero => intro i; rw [binomLayers, binomLayers]
  | succ j ih =>
    intro i
    rw [binomLayers, binomLayers]
    exact binomStep_euro_le_amer option_type S K u d p discount hp0 hp1 hd
      (steps - (j + 1)) _ _ ih i

/-- Counterexample to C6 as stated: with spot 100, strike 60, two years,
two steps, sigma = log 2 and r = log 4, the lattice has u = 2, d = 1/2 and
up probability p = 7/3 greater than one, so the backward expectation has a
negative weight 1 - p; raising a child value by early exercise then lowers
the parent, and the American put prices at -10/3, strictly below the
European 35/9. -/
theorem binomial_tree_american_put_lt_counterexample :
    binomial_tree_price "put" 100 60 2 (Real.log 4) (Real.log 2) 2 true <
      binomial_tree_price "put" 100 60 2 (Real.log 4) (Real.log 2) 2 false := by
  have h2 : (0:ℝ) < 2 := by norm_num
  have h4 : (0:ℝ) < 4 := by norm_num
  have hlog2 : 0 < Real.log 2 := Real.log_pos (by norm_num)
  have hput : ¬ (pyLower "put" = "call") := by decide
  have hU : binomU 2 (Real.log 2) 2 = 2 := by
    rw [binomU, binomSigma, if_neg (not_le.mpr hlog2)]
    rw [show (2:ℝ) / ((2:ℕ) : ℝ) = 1 by norm_num, Real.sqrt_one, mul_one,
      Real.exp_log h2]
  have hP : binomP 2 (Real.log 4) (Real.log 2) 2 = 7 / 3 := by
    rw [binomP, hU]
    rw [show Real.log 4 * ((2:ℝ) / ((2:ℕ) : ℝ)) = Real.log 4 by norm_num]
    rw [Real.exp_log h4]
    norm_num
  have hD : binomDisc 2 (Real.log 4) 2 = 1 / 4 := by
    rw [binomDisc]
    rw [show -(Real.log 4 * ((2:ℝ) / ((2:ℕ) : ℝ))) = -Real.log 4 by norm_num]
    rw [Real.exp_neg, Real.exp_log h4]
    norm_num
  have hterm : binomTerminal "put" 100 60 2 (1/2) 2 = [0, 0, 35] := by
    rw [binomTerminal, show List.range 3 = [0, 1, 2] from rfl]
    simp only [List.map_cons, List.map_nil, if_neg hput]
    norm_num [max_def]
  have hlayer1e : binomLayers "put" 100 60 2 (1/2) (7/3) (1/4) false 2 1 =
      [0, -35/3] := by
    rw [binomLayers, binomLayers, hterm]
    rw [binomStep, show (2:ℕ) - 1 = 1 from rfl, show List.range 2 = [0, 1] from rfl]
    simp only [List.map_cons, List.map_nil, Bool.false_eq_true, if_false]
    norm_num
  have hlayer1a : binomLayers "put" 100 60 2 (1/2) (7/3) (1/4) true 2 1 =
      [0, 10] := by
    rw [binomLayers, binomLayers, hterm]
    rw [binomStep, show (2:ℕ) - 1 = 1 from rfl, show List.range 2 = [0, 1] from rfl]
    simp only [List.map_cons, List.map_nil, if_true, if_neg hput]
    norm_num [max_def]
  have hroote : binomLayers "put" 100 60 2 (1/2) (7/3) (1/4) false 2 2 = [35/9] := by
    rw [binomLayers, hlayer1e]
    rw [binomStep, show (2:ℕ) - 2 = 0 from rfl, show List.range 1 = [0] from rfl]
    simp only [List.map_cons, List.map_nil, Bool.false_eq_true, if_false]
    norm_num
  have hroota : binomLayers "put" 100 60 2 (1/2) (7/3) (1/4) true 2 2 = [-10/3] := by
    rw [binomLayers, hlayer1a]
    rw [binomStep, show (2:ℕ) - 2 = 0 from rfl, show List.range 1 = [0] from rfl]
    simp only [List.map_cons, List.map_nil, if_true, if_neg hput]
    norm_num [max_def]
  rw [binomial_tree_price, binomial_tree_price, if_neg (by norm_num), if_neg (by norm_num)]
  rw [hU, hP, hD, show (1:ℝ) / 2 = 1/2 from rfl]
  rw [hroote, hroota]
  norm_num

/-- C6 amended: for every put with positive time to expiry and at least
one step, whenever the risk neutral up probability lies in the unit
interval the American binomial price dominates the European price for
identical parameters and step count.  Outside the unit interval the
negative expectation weight can invert the inequality, as the
counterexample shows. -/
theorem binomial_tree_american_put_ge_european (S K t r sigma : ℝ) (steps : ℕ)
    (ht : 0 < t) (hsteps : 1 ≤ steps)
    (hp0 : 0 ≤ binomP t r sigma steps) (hp1 : binomP t r sigma steps ≤ 1) :
    binomial_tree_price "put" S K t r sigma steps false ≤
      binomial_tree_price "put" S K t r sigma steps true := by
  rw [binomial_tree_price, binomial_tree_price,
    if_neg (not_le.mpr ht), if_neg (not_le.mpr ht)]
  exact binomLayers_euro_le_amer "put" S K (binomU t sigma steps)
    (1 / binomU t sigma steps) (binomP t r sigma steps) (binomDisc t r steps)
    hp0 hp1 (le_of_lt (Real.exp_pos _)) steps steps 0

/-- Witness for amended C6 at concrete parameters with r = 0, where the up
probability is 1/3. -/
theorem binomial_tree_american_put_ge_european_witness :
    binomial_tree_price "put" 100 60 2 0 (Real.log 2) 2 false ≤
      binomial_tree_price "put" 100 60 2 0 (Real.log 2) 2 true := by
  have hlog2 : 0 < Real.log 2 := Real.log_pos (by norm_num)
  have hU : binomU 2 (Real.log 2) 2 = 2 := by
    rw [binomU, binomSigma, if_neg (not_le.mpr hlog2)]
    rw [show (2:ℝ) / ((2:ℕ) : ℝ) = 1 by norm_num, Real.sqrt_one, mul_one,
      Real.exp_log (by norm_num)]
  have hP : binomP 2 0 (Real.log 2) 2 = 1 / 3 := by
    rw [binomP, hU]
    norm_num [Real.exp_zero]
  exact binomial_tree_american_put_ge_european 100 60 2 0 (Real.log 2) 2
    (by norm_num) (by norm_num) (by rw [hP]; norm_num) (by rw [hP]; norm_num)

/-- The Gaussian density is non-negative. -/
theorem normPdf_nonneg (x : ℝ) : 0 ≤ normPdf x :=
  div_nonneg (le_of_lt (Real.exp_pos _)) (Real.sqrt_nonneg _)

theorem normPdf_eq (x : ℝ) :
    normPdf x = Real.exp (-(1/2) * x ^ 2) / Real.sqrt (2 * Real.pi) := by
  rw [normPdf]
  ring_nf

theorem integrable_normPdf : Integrable normPdf := by
  have h := (integrable_exp_neg_mul_sq (by norm_num : (0:ℝ) < 1/2)).div_const
    (Real.sqrt (2 * Real.pi))
  refine h.congr ?_
  filter_upwards [] with x
  rw [normPdf_eq]

theorem integral_normPdf : ∫ x, normPdf x = 1 := by
  have h : (fun x : ℝ => normPdf x) =
      fun x : ℝ => Real.exp (-(1/2) * x ^ 2) / Real.sqrt (2 * Real.pi) := by
    funext x
    exact normPdf_eq x
  rw [h, MeasureTheory.integral_div, integral_gaussian]
  rw [show Real.pi / (1/2) = 2 * Real.pi by ring]
  rw [div_self]
  exact ne_of_gt (Real.sqrt_pos.mpr (by positivity))

theorem normPdf_even (x : ℝ) : normPdf (-x) = normPdf x := by
  rw [normPdf, normPdf, neg_sq]

theorem normCdf_neg (x : ℝ) : normCdf (-x) = 1 - normCdf x := by
  have h1 : normCdf (-x) = ∫ t in Set.Ioi x, normPdf t := by
    rw [normCdf]
    have heven : (∫ t in Set.Iic (-x), normPdf t) =
        ∫ t in Set.Iic (-x), normPdf (-t) := by
      apply integral_congr_ae
      filter_upwards [] with t
      rw [normPdf_even]
    rw [heven, integral_comp_neg_Iic, neg_neg]
  have h2 := MeasureTheory.integral_add_compl (measurableSet_Iic : MeasurableSet (Set.Iic x))
    integrable_normPdf
  rw [Set.compl_Iic] at h2
  rw [integral_normPdf] at h2
  rw [h1, ← h2]
  show (∫ t in Set.Ioi x, normPdf t) =
    (∫ t in Set.Iic x, normPdf t) + (∫ t in Set.Ioi x, normPdf t) - normCdf x
  rw [normCdf]
  ring

theorem normCdf_shift (c d : ℝ) :
    (∫ v in Set.Iic d, normPdf (v + c)) = normCdf (d + c) := by
  have hmp : MeasurePreserving (fun v : ℝ => v + c) volume volume :=
    measurePreserving_add_right volume c
  have hemb : MeasurableEmbedding (fun v : ℝ => v + c) :=
    (Homeomorph.addRight c).measurableEmbedding
  have hpre : Set.preimage (fun v : ℝ => v + c) (Set.Iic (d + c)) = Set.Iic d := by
    ext v
    simp
  have := hmp.setIntegral_preimage_emb hemb normPdf (Set.Iic (d + c))
  rw [hpre] at this
  rw [normCdf, ← this]

theorem normPdf_shift (v c : ℝ) :
    normPdf (v + c) = normPdf v * Real.exp (-(v * c) - c ^ 2 / 2) := by
  rw [normPdf, normPdf, div_mul_eq_mul_div, ← Real.exp_add]
  congr 1
  ring_nf

theorem integrable_normPdf_shift (c : ℝ) :
    Integrable (fun v : ℝ => normPdf (v + c)) := by
  have hmp : MeasurePreserving (fun v : ℝ => v + c) volume volume :=
    measurePreserving_add_right volume c
  have hemb : MeasurableEmbedding (fun v : ℝ => v + c) :=
    (Homeomorph.addRight c).measurableEmbedding
  exact (hmp.integrable_comp_emb hemb).mpr integrable_normPdf

theorem normCdf_mul_exp_le (c : ℝ) (hc : 0 ≤ c) (d : ℝ) :
    Real.exp (-(d * c) - c ^ 2 / 2) * normCdf d ≤ normCdf (d + c) := by
  rw [← normCdf_shift c d]
  have hcongr : (∫ v in Set.Iic d, normPdf (v + c)) =
      ∫ v in Set.Iic d, normPdf v * Real.exp (-(v * c) - c ^ 2 / 2) := by
    apply integral_congr_ae
    filter_upwards [] with v
    rw [normPdf_shift]
  rw [hcongr]
  have hint1 : IntegrableOn (fun v : ℝ => normPdf v * Real.exp (-(d * c) - c ^ 2 / 2))
      (Set.Iic d) := (integrable_normPdf.mul_const _).integrableOn
  have hint2 : IntegrableOn (fun v : ℝ => normPdf v * Real.exp (-(v * c) - c ^ 2 / 2))
      (Set.Iic d) := by
    refine ((integrable_normPdf_shift c).integrableOn).congr_fun ?_ measurableSet_Iic
    intro v _
    show normPdf (v + c) = normPdf v * Real.exp (-(v * c) - c ^ 2 / 2)
    rw [normPdf_shift]
  have hmono : (∫ v in Set.Iic d, normPdf v * Real.exp (-(d * c) - c ^ 2 / 2)) ≤
      ∫ v in Set.Iic d, normPdf v * Real.exp (-(v * c) - c ^ 2 / 2) := by
    apply setIntegral_mono_on hint1 hint2 measurableSet_Iic
    intro v hv
    apply mul_le_mul_of_nonneg_left _ (normPdf_nonneg v)
    apply Real.exp_le_exp.mpr
    have : v * c ≤ d * c := mul_le_mul_of_nonneg_right hv hc
    linarith
  calc Real.exp (-(d * c) - c ^ 2 / 2) * normCdf d
      = ∫ v in Set.Iic d, normPdf v * Real.exp (-(d * c) - c ^ 2 / 2) := by
        rw [normCdf, mul_comm, ← integral_mul_right]
    _ ≤ _ := hmono

theorem normCdf_sub_le (c : ℝ) (hc : 0 ≤ c) (x : ℝ) :
    normCdf (x - c) ≤ Real.exp (x * c - c ^ 2 / 2) * normCdf x := by
  have h := normCdf_mul_exp_le c hc (x - c)
  rw [show x - c + c = x by ring] at h
  have hE : (0:ℝ) < Real.exp (-((x - c) * c) - c ^ 2 / 2) := Real.exp_pos _
  have key : normCdf (x - c) ≤
      normCdf x * (Real.exp (-((x - c) * c) - c ^ 2 / 2))⁻¹ := by
    rw [← div_eq_mul_inv, le_div_iff₀ hE]
    calc normCdf (x - c) * Real.exp (-((x - c) * c) - c ^ 2 / 2)
        = Real.exp (-((x - c) * c) - c ^ 2 / 2) * normCdf (x - c) := by ring
      _ ≤ normCdf x := h
  calc normCdf (x - c) ≤
      normCdf x * (Real.exp (-((x - c) * c) - c ^ 2 / 2))⁻¹ := key
    _ = Real.exp (x * c - c ^ 2 / 2) * normCdf x := by
        rw [← Real.exp_neg]
        rw [show -(-((x - c) * c) - c ^ 2 / 2) = x * c - c ^ 2 / 2 by ring]
        ring

theorem bs_identity (S K t r sigma : ℝ) (hS : 0 < S) (hK : 0 < K)
    (ht : 0 < t) (hs : 0 < sigma) :
    K * Real.exp (-(r * t)) =
      S * Real.exp (-(bsD2 S K t r sigma * (sigma * Real.sqrt t)) -
        (sigma * Real.sqrt t) ^ 2 / 2) := by
  have hc : 0 < sigma * Real.sqrt t := mul_pos hs (Real.sqrt_pos.mpr ht)
  have hc2 : (sigma * Real.sqrt t) ^ 2 = sigma ^ 2 * t := by
    rw [mul_pow, Real.sq_sqrt ht.le]
  have hd1c : bsD1 S K t r sigma * (sigma * Real.sqrt t) =
      Real.log (S / K) + (r + sigma ^ 2 / 2) * t := by
    rw [bsD1]
    exact div_mul_cancel₀ _ (ne_of_gt hc)
  have harg : -(bsD2 S K t r sigma * (sigma * Real.sqrt t)) -
      (sigma * Real.sqrt t) ^ 2 / 2 = -(Real.log (S / K) + r * t) := by
    have h1 : -(bsD2 S K t r sigma * (sigma * Real.sqrt t)) -
        (sigma * Real.sqrt t) ^ 2 / 2 =
        -(bsD1 S K t r sigma * (sigma * Real.sqrt t)) +
        (sigma * Real.sqrt t) ^ 2 / 2 := by
      rw [bsD2]
      ring
    rw [h1, hd1c, hc2]
    ring
  rw [harg, neg_add, Real.exp_add]
  rw [show Real.exp (-Real.log (S / K)) = (S / K)⁻¹ by
    rw [Real.exp_neg, Real.exp_log (div_pos hS hK)]]
  rw [inv_div]
  rw [show S * (K / S * Real.exp (-(r * t))) = S / S * (K * Real.exp (-(r * t))) by ring]
  rw [div_self (ne_of_gt hS), one_mul]

theorem bs_call_raw_nonneg (S K t r sigma : ℝ) (hS : 0 < S) (hK : 0 < K)
    (ht : 0 < t) (hs : 0 < sigma) :
    0 ≤ S * normCdf (bsD1 S K t r sigma) -
      K * Real.exp (-(r * t)) * normCdf (bsD2 S K t r sigma) := by
  have hc : 0 ≤ sigma * Real.sqrt t :=
    le_of_lt (mul_pos hs (Real.sqrt_pos.mpr ht))
  have hid := bs_identity S K t r sigma hS hK ht hs
  have hkey := normCdf_mul_exp_le (sigma * Real.sqrt t) hc (bsD2 S K t r sigma)
  have hd : bsD2 S K t r sigma + sigma * Real.sqrt t = bsD1 S K t r sigma := by
    rw [bsD2]
    ring
  rw [hd] at hkey
  have : K * Real.exp (-(r * t)) * normCdf (bsD2 S K t r sigma) ≤
      S * normCdf (bsD1 S K t r sigma) := by
    rw [hid, mul_assoc]
    exact mul_le_mul_of_nonneg_left hkey hS.le
  linarith

theorem bs_put_raw_nonneg (S K t r sigma : ℝ) (hS : 0 < S) (hK : 0 < K)
    (ht : 0 < t) (hs : 0 < sigma) :
    0 ≤ K * Real.exp (-(r * t)) * normCdf (-(bsD2 S K t r sigma)) -
      S * normCdf (-(bsD1 S K t r sigma)) := by
  have hc : 0 ≤ sigma * Real.sqrt t :=
    le_of_lt (mul_pos hs (Real.sqrt_pos.mpr ht))
  have hid := bs_identity S K t r sigma hS hK ht hs
  have hkey := normCdf_sub_le (sigma * Real.sqrt t) hc (-(bsD2 S K t r sigma))
  have hd : -(bsD2 S K t r sigma) - sigma * Real.sqrt t = -(bsD1 S K t r sigma) := by
    rw [bsD2]
    ring
  rw [hd] at hkey
  have harg : -(bsD2 S K t r sigma) * (sigma * Real.sqrt t) -
      (sigma * Real.sqrt t) ^ 2 / 2 =
      -(bsD2 S K t r sigma * (sigma * Real.sqrt t)) -
      (sigma * Real.sqrt t) ^ 2 / 2 := by
    ring
  rw [harg] at hkey
  have : S * normCdf (-(bsD1 S K t r sigma)) ≤
      K * Real.exp (-(r * t)) * normCdf (-(bsD2 S K t r sigma)) := by
    rw [hid, mul_assoc]
    exact mul_le_mul_of_nonneg_left hkey hS.le
  linarith

theorem normCdf_add_neg (x : ℝ) : normCdf x + normCdf (-x) = 1 := by
  rw [normCdf_neg]
  ring

/-- C5: put call parity for the analytic model: with positive spot,
strike, time and volatility the call price minus the put price equals
S - K exp(-r t) exactly, because both zero floors are inert: the raw call
and put formula values are non-negative. -/
theorem put_call_parity (S K t r sigma : ℝ) (hS : 0 < S) (hK : 0 < K)
    (ht : 0 < t) (hs : 0 < sigma) :
    black_scholes "call" S K t r sigma - black_scholes "put" S K t r sigma =
      S - K * Real.exp (-(r * t)) := by
  have hcall : pyLower "call" = "call" := by decide
  have hpc : pyLower "put" ≠ "call" := by decide
  have hpp : pyLower "put" = "put" := by decide
  have hclamp : bsSigma sigma = sigma := by
    rw [bsSigma, if_neg (not_le.mpr hs)]
  rw [black_scholes, black_scholes]
  rw [if_neg (not_le.mpr ht), if_neg (not_le.mpr ht)]
  rw [if_pos hcall, if_neg hpc, if_pos hpp, hclamp]
  rw [max_eq_right (bs_call_raw_nonneg S K t r sigma hS hK ht hs)]
  rw [max_eq_right (bs_put_raw_nonneg S K t r sigma hS hK ht hs)]
  have h1 := normCdf_add_neg (bsD1 S K t r sigma)
  have h2 := normCdf_add_neg (bsD2 S K t r sigma)
  linear_combination S * h1 - K * Real.exp (-(r * t)) * h2

/-- Witness for C5 at spot 100, strike 100, one year, zero rate, unit
volatility. -/
theorem put_call_parity_witness :
    black_scholes "call" 100 100 1 0 1 - black_scholes "put" 100 100 1 0 1 =
      100 - 100 * Real.exp (-(0 * 1)) :=
  put_call_parity 100 100 1 0 1 (by norm_num) (by norm_num) (by norm_num) (by norm_num)

end OptionsModel
